import Mathlib

/-!
Shallow embedding of the EdgeOrigin `pkg/filecache` layer (Go sources
`badger_cache.go`, `stats.go`, `cache.go`) and proofs about its claims.

Modelling conventions:
* the embedded Badger store is an association list from full storage-key
  strings to stored values; `storeSet` replaces any previous binding, and
  `storeDelete` removes all bindings of a key, matching Badger's
  set/delete-by-key semantics inside a committed transaction;
* timestamps (`time.Time`) are integers; Go's `t.After(u)` is `t > u`;
* `time.Duration` values (ttl) are integers; `int64` counters are integers
  (the claims never approach overflow, so no wraparound is modelled);
* `float64` hit/miss rates are modelled as rationals;
* payload bytes are a `List Nat`;
* JSON (de)serialization of a metadata record is modelled by the typed
  constructor `StoredValue.infoVal`; bytes that fail to unmarshal as a
  `FileInfo` are the constructor `StoredValue.corrupt`.
-/

/-- Metadata record for one cache entry (Go struct `FileInfo` in `cache.go`). -/
structure FileInfo where
  key : String
  size : Int
  mimeType : String
  createdAt : Int
  expiresAt : Int
  accessCount : Int
  lastAccess : Int
  deriving Repr, DecidableEq

/-- Aggregate statistics (Go struct `Stats` in `cache.go`). -/
structure Stats where
  totalFiles : Int
  totalSize : Int
  hitRate : ℚ
  missRate : ℚ
  expiredFiles : Int
  lastCleanup : Int
  deriving Repr, DecidableEq

/-- Cache configuration (Go struct `Config` in `cache.go`); only the fields
the cache operations read are modelled. -/
structure Config where
  maxCacheSize : Int
  defaultTTL : Int
  deriving Repr, DecidableEq

/-- A value held in the embedded key-value store under some storage key. -/
inductive StoredValue where
  | payload (data : List Nat)
  | infoVal (rec : FileInfo)
  | statsVal (rec : Stats)
  | corrupt
  deriving Repr, DecidableEq

/-- The embedded key-value store: bindings from full storage keys to values. -/
abbrev Store : Type := List (String × StoredValue)

/-- Errors surfaced by the cache operations, one constructor per distinct Go
error value reaching the caller. -/
inductive CacheError where
  | sizeExceeded
  | notFound
  | expired
  | corruptMetadata
  deriving Repr, DecidableEq

/-- Go constant `fileDataPrefix = "file:"`. -/
def fileDataPfx : String := "file:"

/-- Go constant `fileInfoPrefix = "info:"`. -/
def fileInfoPfx : String := "info:"

/-- Go constant `statsKey = "stats"`. -/
def statsKey : String := "stats"

/-- Storage key of a logical key's payload record. -/
def dataKey (k : String) : String := fileDataPfx ++ k

/-- Storage key of a logical key's metadata record. -/
def infoKey (k : String) : String := fileInfoPfx ++ k

/-- Lookup of a storage key in the store. -/
def storeGet : Store → String → Option StoredValue
  | [], _ => none
  | (k', v) :: rest, k => if k' = k then some v else storeGet rest k

/-- Removal of every binding of a storage key (Badger `txn.Delete`). -/
def storeDelete : Store → String → Store
  | [], _ => []
  | (k', v) :: rest, k =>
      if k' = k then storeDelete rest k else (k', v) :: storeDelete rest k

/-- Binding update for a storage key (Badger `txn.Set`). -/
def storeSet (st : Store) (k : String) (v : StoredValue) : Store :=
  (k, v) :: storeDelete st k

/-- Full state of the cache: the embedded store plus the in-process stats. -/
structure CacheState where
  store : Store
  stats : Stats
  deriving Repr, DecidableEq

/-- The zero-valued statistics record (Go `&Stats{}`). -/
def zeroStats : Stats :=
  { totalFiles := 0, totalSize := 0, hitRate := 0, missRate := 0,
    expiredFiles := 0, lastCleanup := 0 }

/-- The cache state right after construction on an empty data directory. -/
def initState : CacheState := { store := [], stats := zeroStats }

/-- Go `updateStatsAfterSet` (`stats.go`): increment file count and size. -/
def updateStatsAfterSet (s : Stats) (size : Int) : Stats :=
  { s with totalFiles := s.totalFiles + 1, totalSize := s.totalSize + size }

/-- Go `updateStatsAfterDelete` (`stats.go`): guarded decrements. -/
def updateStatsAfterDelete (s : Stats) (size : Int) : Stats :=
  let s1 := if s.totalFiles > 0 then { s with totalFiles := s.totalFiles - 1 } else s
  if s1.totalSize ≥ size then { s1 with totalSize := s1.totalSize - size } else s1

/-- Go `updateStatsAfterHit` (`stats.go`): running-average hit update. -/
def updateStatsAfterHit (s : Stats) : Stats :=
  let total := s.hitRate + s.missRate
  if total = 0 then
    { s with hitRate := 1, missRate := 0 }
  else
    let h := (s.hitRate * total + 1) / (total + 1)
    { s with hitRate := h, missRate := 1 - h }

/-- Go `updateStatsAfterMiss` (`stats.go`): running-average miss update. -/
def updateStatsAfterMiss (s : Stats) : Stats :=
  let total := s.hitRate + s.missRate
  if total = 0 then
    { s with hitRate := 0, missRate := 1 }
  else
    let m := (s.missRate * total + 1) / (total + 1)
    { s with missRate := m, hitRate := 1 - m }

/-- Raw bytes yielded by Badger for a stored value when read through a data
key; non-payload values never occur under a data key in reachable states. -/
def payloadBytes : StoredValue → List Nat
  | .payload d => d
  | _ => []

/-- Go `badgerCache.Set` (`badger_cache.go` lines 84-138). `now` is the value
of `time.Now()` during the call. Returns the new state and `some` error on
failure. -/
def setOp (c : CacheState) (cfg : Config) (key : String) (data : List Nat)
    (mime : String) (ttl now : Int) : CacheState × Option CacheError :=
  let ttl1 := if ttl ≤ 0 then cfg.defaultTTL else ttl
  if (data.length : Int) > cfg.maxCacheSize then
    (c, some .sizeExceeded)
  else
    let fi : FileInfo :=
      { key := key, size := (data.length : Int), mimeType := mime,
        createdAt := now, expiresAt := now + ttl1, accessCount := 0,
        lastAccess := now }
    let st2 := storeSet (storeSet c.store (dataKey key) (.payload data))
      (infoKey key) (.infoVal fi)
    ({ store := st2, stats := updateStatsAfterSet c.stats (data.length : Int) },
     none)

/-- Go `badgerCache.Get` (`badger_cache.go` lines 141-191), including the
`updateFileAccess` write-back from `stats.go` lines 101-115. On success the
returned metadata is the same (mutated) record that was written back. -/
def getOp (c : CacheState) (key : String) (now : Int) :
    CacheState × Except CacheError (List Nat × FileInfo) :=
  match storeGet c.store (infoKey key) with
  | none =>
      ({ c with stats := updateStatsAfterMiss c.stats }, .error .notFound)
  | some (.infoVal fi) =>
      if now > fi.expiresAt then
        (c, .error .expired)
      else
        match storeGet c.store (dataKey key) with
        | none =>
            ({ c with stats := updateStatsAfterMiss c.stats }, .error .notFound)
        | some v =>
            let fi2 := { fi with accessCount := fi.accessCount + 1,
                                 lastAccess := now }
            let st2 := { c with stats := updateStatsAfterHit c.stats }
            ({ st2 with store := storeSet st2.store (infoKey key) (.infoVal fi2) },
             .ok (payloadBytes v, fi2))
  | some _ =>
      (c, .error .corruptMetadata)

/-- Go `badgerCache.Exists` (`badger_cache.go` lines 194-209). -/
def existsOp (c : CacheState) (key : String) : Bool :=
  (storeGet c.store (infoKey key)).isSome

/-- Go `badgerCache.Delete` (`badger_cache.go` lines 212-249). -/
def deleteOp (c : CacheState) (key : String) : CacheState × Option CacheError :=
  match storeGet c.store (infoKey key) with
  | some (.infoVal fi) =>
      let st2 := storeDelete (storeDelete c.store (dataKey key)) (infoKey key)
      ({ store := st2, stats := updateStatsAfterDelete c.stats fi.size }, none)
  | none =>
      let st2 := storeDelete (storeDelete c.store (dataKey key)) (infoKey key)
      ({ store := st2, stats := c.stats }, none)
  | some _ =>
      (c, some .corruptMetadata)

/-- Go `badgerCache.GetInfo` (`badger_cache.go` lines 289-313). -/
def getInfoOp (c : CacheState) (key : String) : Except CacheError FileInfo :=
  match storeGet c.store (infoKey key) with
  | none => .error .notFound
  | some (.infoVal fi) => .ok { fi with key := key }
  | some _ => .error .corruptMetadata

/-- Test of Go's `len(key) > len(fileInfoPrefix) && key[:len(fileInfoPrefix)]
== fileInfoPrefix` used by `List` and `Cleanup` to select metadata records. -/
def isInfoScanKey (s : String) : Bool :=
  decide (5 < s.data.length) && (s.data.take 5 == fileInfoPfx.data)

/-- Logical key recovered by stripping the metadata storage-key tag. -/
def stripInfoTag (s : String) : String := ⟨s.data.drop 5⟩

/-- Go `badgerCache.List` (`badger_cache.go` lines 252-286): scan of all
store bindings, collecting decoded metadata records; an undecodable record
aborts the scan with its error. -/
def listScan : Store → Except CacheError (List FileInfo)
  | [] => .ok []
  | (k, v) :: rest =>
      if isInfoScanKey k then
        match v with
        | .infoVal fi =>
            match listScan rest with
            | .ok fs => .ok ({ fi with key := stripInfoTag k } :: fs)
            | .error e => .error e
        | _ => .error .corruptMetadata
      else
        listScan rest

/-- Go `badgerCache.List` at the facade level. -/
def listOp (c : CacheState) : Except CacheError (List FileInfo) :=
  listScan c.store

/-- Scan phase of Go `badgerCache.Cleanup` (`badger_cache.go` lines 322-351):
collect the logical keys of expired metadata records; an undecodable record
aborts the whole view with its error. The Go code also accumulates a
`totalSize` it never reads afterwards; that dead accumulator is omitted. -/
def collectExpired (st : Store) (now : Int) : Except CacheError (List String) :=
  match st with
  | [] => .ok []
  | (k, v) :: rest =>
      if isInfoScanKey k then
        match v with
        | .infoVal fi =>
            match collectExpired rest now with
            | .ok ks => .ok (if now > fi.expiresAt then stripInfoTag k :: ks else ks)
            | .error e => .error e
        | _ => .error .corruptMetadata
      else
        collectExpired rest now

/-- Deletion phase of Go `badgerCache.Cleanup` (lines 358-363): each key is
deleted via `Delete`; a per-key failure is skipped and sweeping continues. -/
def deleteMany (c : CacheState) : List String → CacheState
  | [] => c
  | k :: rest => deleteMany (deleteOp c k).1 rest

/-- Go `badgerCache.Cleanup` (`badger_cache.go` lines 316-375), including the
final `saveStats` write of the serialized stats record (whose own error the
Go code discards). -/
def cleanupOp (c : CacheState) (now : Int) : CacheState × Option CacheError :=
  match collectExpired c.store now with
  | .error e => (c, some e)
  | .ok ks =>
      let c2 := deleteMany c ks
      let st := { c2.stats with expiredFiles := (ks.length : Int),
                                lastCleanup := now }
      ({ store := storeSet c2.store statsKey (.statsVal st), stats := st },
       none)

/-- Go `badgerCache.Stats` (`badger_cache.go` lines 383-390): snapshot copy. -/
def statsOp (c : CacheState) : Stats := c.stats

/-- Metadata record of an entry that expired at time 0. -/
def fiEx : FileInfo :=
  { key := "a", size := 1, mimeType := "m", createdAt := 0, expiresAt := 0,
    accessCount := 0, lastAccess := 0 }

/-- Cache state holding a single entry whose `expiresAt` has passed by time 1. -/
def cExpired : CacheState :=
  { store := [(infoKey "a", .infoVal fiEx)], stats := zeroStats }

/-- Metadata record of an entry that is still live at time 1. -/
def fiFresh : FileInfo :=
  { key := "a", size := 1, mimeType := "m", createdAt := 0, expiresAt := 10,
    accessCount := 3, lastAccess := 0 }

/-- Cache state holding a single live entry with both of its records. -/
def cFresh : CacheState :=
  { store := [(infoKey "a", .infoVal fiFresh), (dataKey "a", .payload [9])],
    stats := zeroStats }

/-- Statistics hit update as the specification's §4.3 RecordHit rule states
it, written from the spec's words for comparison with the code. -/
def specRecordHit (s : Stats) : Stats :=
  if s.hitRate + s.missRate = 0 then
    { s with hitRate := 1, missRate := 0 }
  else
    { s with
        hitRate := (s.hitRate * (s.hitRate + s.missRate) + 1) /
          ((s.hitRate + s.missRate) + 1),
        missRate := 1 - (s.hitRate * (s.hitRate + s.missRate) + 1) /
          ((s.hitRate + s.missRate) + 1) }

/-- Statistics miss update as the specification's §4.3 RecordMiss rule states
it, written from the spec's words for comparison with the code. -/
def specRecordMiss (s : Stats) : Stats :=
  if s.hitRate + s.missRate = 0 then
    { s with hitRate := 0, missRate := 1 }
  else
    { s with
        missRate := (s.missRate * (s.hitRate + s.missRate) + 1) /
          ((s.hitRate + s.missRate) + 1),
        hitRate := 1 - (s.missRate * (s.hitRate + s.missRate) + 1) /
          ((s.hitRate + s.missRate) + 1) }

/-- Test of whether stored bytes decode as a metadata record. -/
def decodesAsInfo : StoredValue → Bool
  | .infoVal _ => true
  | _ => false

/-- Predicate of a store whose metadata-scan bindings all decode: every
binding selected by the `List`/`Cleanup` scan holds a decodable record. -/
abbrev wellFormedScan (st : Store) : Prop :=
  ∀ p ∈ st, isInfoScanKey p.1 = true → decodesAsInfo p.2 = true

/-- Cache state holding one metadata record whose bytes do not decode. -/
def cCorrupt : CacheState :=
  { store := [(infoKey "a", .corrupt)], stats := zeroStats }

/-- One facade operation of a client-visible trace. -/
inductive Op where
  | oset (key : String) (data : List Nat) (mime : String) (ttl now : Int)
  | oget (key : String) (now : Int)
  | odel (key : String)
  | ocleanup (now : Int)
  deriving Repr, DecidableEq

/-- State reached by running one operation (results discarded). -/
def applyOp (cfg : Config) (c : CacheState) : Op → CacheState
  | .oset k d m t n => (setOp c cfg k d m t n).1
  | .oget k n => (getOp c k n).1
  | .odel k => (deleteOp c k).1
  | .ocleanup n => (cleanupOp c n).1

/-- State reached by running a trace of operations in order. -/
def applyOps (cfg : Config) : CacheState → List Op → CacheState
  | c, [] => c
  | c, op :: rest => applyOps cfg (applyOp cfg c op) rest

/-- Coupling invariant of claim C4: a payload record is present exactly when
the same key's metadata record is present. -/
def pairedInv (c : CacheState) : Prop :=
  ∀ k, (storeGet c.store (dataKey k)).isSome ↔
    (storeGet c.store (infoKey k)).isSome

/-- Test of whether a storage key is a metadata binding (carries the
metadata tag, the empty logical key included). -/
def isInfoBinding (s : String) : Bool := s.data.take 5 == fileInfoPfx.data

/-- Number of metadata bindings in the store. -/
def infoCount : Store → Nat
  | [] => 0
  | (k, _) :: rest => (if isInfoBinding k then 1 else 0) + infoCount rest

/-- Number of Set operations in a trace. -/
def countSets : List Op → Nat
  | [] => 0
  | .oset _ _ _ _ _ :: rest => countSets rest + 1
  | _ :: rest => countSets rest

/-- Number of Delete operations in a trace. -/
def countDels : List Op → Nat
  | [] => 0
  | .odel _ :: rest => countDels rest + 1
  | _ :: rest => countDels rest

/-- Traces of Sets and Deletes in which every Set fits the size limit and
every Delete targets a key whose metadata record is present and decodable at
that moment. -/
inductive GoodTrace (cfg : Config) : CacheState → List Op → Prop where
  | nil (c : CacheState) : GoodTrace cfg c []
  | gset {c : CacheState} {ops : List Op} (k : String) (d : List Nat)
      (m : String) (t n : Int) (hsz : (d.length : Int) ≤ cfg.maxCacheSize)
      (htail : GoodTrace cfg (applyOp cfg c (.oset k d m t n)) ops) :
      GoodTrace cfg c (.oset k d m t n :: ops)
  | gdel {c : CacheState} {ops : List Op} (k : String) (fi : FileInfo)
      (hpres : storeGet c.store (infoKey k) = some (.infoVal fi))
      (htail : GoodTrace cfg (applyOp cfg c (.odel k)) ops) :
      GoodTrace cfg c (.odel k :: ops)

/-- Accounting invariant tying the store to the statistics: the number of
metadata bindings never exceeds the totalFiles counter. -/
def statsTotalInv (c : CacheState) : Prop :=
  (infoCount c.store : Int) ≤ c.stats.totalFiles

/-- Configuration used by the concrete traces below. -/
def cfgEx : Config := { maxCacheSize := 100, defaultTTL := 50 }

/-- Trace with one successful Set and one Delete of a key never stored. -/
def opsBad : List Op := [.oset "a" [7] "m" 10 0, .odel "b"]

/-- Trace with one successful Set and one Delete of the stored key. -/
def opsGood : List Op := [.oset "a" [7] "m" 10 0, .odel "a"]

/-- Metadata record produced by the Set of the trace `opsGood`. -/
def fiSet : FileInfo :=
  { key := "a", size := 1, mimeType := "m", createdAt := 0, expiresAt := 10,
    accessCount := 0, lastAccess := 0 }

/-! Lemmas and claim theorems. -/

lemma infoKey_data (k : String) :
    (infoKey k).data = 'i' :: 'n' :: 'f' :: 'o' :: ':' :: k.data := by
  show (fileInfoPfx ++ k).data = _
  rw [String.data_append]
  rfl

lemma dataKey_data (k : String) :
    (dataKey k).data = 'f' :: 'i' :: 'l' :: 'e' :: ':' :: k.data := by
  show (fileDataPfx ++ k).data = _
  rw [String.data_append]
  rfl

lemma infoKey_inj {a b : String} (h : infoKey a = infoKey b) : a = b := by
  have h2 : (infoKey a).data = (infoKey b).data := by rw [h]
  rw [infoKey_data, infoKey_data] at h2
  simp only [List.cons.injEq] at h2
  exact String.ext h2.2.2.2.2.2

lemma dataKey_inj {a b : String} (h : dataKey a = dataKey b) : a = b := by
  have h2 : (dataKey a).data = (dataKey b).data := by rw [h]
  rw [dataKey_data, dataKey_data] at h2
  simp only [List.cons.injEq] at h2
  exact String.ext h2.2.2.2.2.2

lemma dataKey_ne_infoKey (a b : String) : dataKey a ≠ infoKey b := by
  intro h
  have h2 : (dataKey a).data = (infoKey b).data := by rw [h]
  rw [dataKey_data, infoKey_data] at h2
  simp at h2

lemma statsKey_ne_infoKey (a : String) : statsKey ≠ infoKey a := by
  intro h
  have h2 : statsKey.data = (infoKey a).data := by rw [h]
  rw [infoKey_data] at h2
  simp [statsKey] at h2

lemma statsKey_ne_dataKey (a : String) : statsKey ≠ dataKey a := by
  intro h
  have h2 : statsKey.data = (dataKey a).data := by rw [h]
  rw [dataKey_data] at h2
  simp [statsKey] at h2

lemma isInfoScanKey_infoKey {k : String} (h : k ≠ "") :
    isInfoScanKey (infoKey k) = true := by
  have hpd : fileInfoPfx.data = ['i', 'n', 'f', 'o', ':'] := by decide
  have hk : k.data ≠ [] := fun hnil => h (String.ext hnil)
  have hlen : 0 < k.data.length := List.length_pos.mpr hk
  simp [isInfoScanKey, infoKey_data, hpd]
  have hlk : k.length = k.data.length := rfl
  omega

lemma isInfoScanKey_infoKey_empty : isInfoScanKey (infoKey "") = false := by
  decide

lemma isInfoScanKey_dataKey (k : String) : isInfoScanKey (dataKey k) = false := by
  have hpd : fileInfoPfx.data = ['i', 'n', 'f', 'o', ':'] := by decide
  simp [isInfoScanKey, dataKey_data, hpd]

lemma isInfoScanKey_statsKey : isInfoScanKey statsKey = false := by decide

lemma stripInfoTag_infoKey (k : String) : stripInfoTag (infoKey k) = k := by
  simp [stripInfoTag, infoKey_data]

lemma isInfoScanKey_elim {s : String} (h : isInfoScanKey s = true) :
    s = infoKey (stripInfoTag s) ∧ stripInfoTag s ≠ "" := by
  simp only [isInfoScanKey, Bool.and_eq_true, decide_eq_true_eq, beq_iff_eq] at h
  obtain ⟨hlen, htake⟩ := h
  constructor
  · apply String.ext
    show s.data = (fileInfoPfx ++ (⟨s.data.drop 5⟩ : String)).data
    rw [String.data_append]
    have h5 : fileInfoPfx.data = s.data.take 5 := htake.symm
    rw [h5]
    exact (List.take_append_drop 5 s.data).symm
  · intro hempty
    have hnil : (stripInfoTag s).data = [] := by rw [hempty]
    simp only [stripInfoTag] at hnil
    have := List.drop_eq_nil_iff.mp hnil
    omega

lemma storeGet_delete_self (st : Store) (k : String) :
    storeGet (storeDelete st k) k = none := by
  induction st with
  | nil => rfl
  | cons p rest ih =>
      obtain ⟨k', v⟩ := p
      by_cases h : k' = k
      · simp [storeDelete, h, ih]
      · simp [storeDelete, storeGet, h, ih]

lemma storeGet_delete_ne {k k' : String} (st : Store) (h : k' ≠ k) :
    storeGet (storeDelete st k) k' = storeGet st k' := by
  induction st with
  | nil => rfl
  | cons p rest ih =>
      obtain ⟨k'', v⟩ := p
      have hne : k ≠ k' := fun he => h he.symm
      by_cases h2 : k'' = k
      · simp [storeDelete, storeGet, h2, hne, ih]
      · by_cases h3 : k'' = k'
        · simp [storeDelete, storeGet, h2, h3, h]
        · simp [storeDelete, storeGet, h2, h3, ih]

lemma storeGet_set_self (st : Store) (k : String) (v : StoredValue) :
    storeGet (storeSet st k v) k = some v := by
  simp [storeSet, storeGet]

lemma storeGet_set_ne {k k' : String} (st : Store) (v : StoredValue)
    (h : k' ≠ k) : storeGet (storeSet st k v) k' = storeGet st k' := by
  have h2 : k ≠ k' := fun he => h he.symm
  simp [storeSet, storeGet, h2, storeGet_delete_ne st h]

/-- Outcome of a `Set` whose payload fits under the size limit. -/
lemma setOp_ok {cfg : Config} {data : List Nat} (c : CacheState)
    (key mime : String) (ttl now : Int)
    (hsz : (data.length : Int) ≤ cfg.maxCacheSize) :
    setOp c cfg key data mime ttl now =
      ({ store := storeSet (storeSet c.store (dataKey key) (.payload data))
           (infoKey key)
           (.infoVal { key := key, size := (data.length : Int), mimeType := mime,
                       createdAt := now,
                       expiresAt := now + (if ttl ≤ 0 then cfg.defaultTTL else ttl),
                       accessCount := 0, lastAccess := now }),
         stats := updateStatsAfterSet c.stats (data.length : Int) }, none) := by
  simp only [setOp]
  rw [if_neg (not_lt.mpr hsz)]

/-- Outcome of a `Get` that finds an unexpired metadata record and a payload
record: the hit path of `badgerCache.Get`. -/
lemma getOp_hit {c : CacheState} {k : String} {now : Int} {fi : FileInfo}
    {v : StoredValue}
    (hinfo : storeGet c.store (infoKey k) = some (.infoVal fi))
    (hexp : ¬ now > fi.expiresAt)
    (hdata : storeGet c.store (dataKey k) = some v) :
    getOp c k now =
      ({ store := storeSet c.store (infoKey k)
           (.infoVal { fi with accessCount := fi.accessCount + 1,
                               lastAccess := now }),
         stats := updateStatsAfterHit c.stats },
       .ok (payloadBytes v,
            { fi with accessCount := fi.accessCount + 1, lastAccess := now })) := by
  simp only [getOp, hinfo, hdata]
  rw [if_neg hexp]

/-- C1: after a successful `Set(k, p, mime, ttl)` with positive ttl, a `Get(k)`
performed before the entry's `expiresAt` succeeds and returns exactly the
payload bytes `p` and a metadata snapshot whose key is `k`, whose size is
`len(p)` and whose mimeType is `mime`. -/
theorem c1_set_get_roundtrip (c : CacheState) (cfg : Config) (k : String)
    (p : List Nat) (mime : String) (ttl now now2 : Int)
    (hsz : (p.length : Int) ≤ cfg.maxCacheSize) (httl : 0 < ttl)
    (hbefore : now2 < now + ttl) :
    (setOp c cfg k p mime ttl now).2 = none ∧
    ∃ fi, (getOp (setOp c cfg k p mime ttl now).1 k now2).2 = .ok (p, fi) ∧
      fi.key = k ∧ fi.size = (p.length : Int) ∧ fi.mimeType = mime := by
  rw [setOp_ok c k mime ttl now hsz]
  have httl1 : ¬ ttl ≤ 0 := not_le.mpr httl
  refine ⟨rfl, ?_⟩
  have hinfo : storeGet
      (storeSet (storeSet c.store (dataKey k) (.payload p)) (infoKey k)
        (.infoVal { key := k, size := (p.length : Int), mimeType := mime,
                    createdAt := now,
                    expiresAt := now + (if ttl ≤ 0 then cfg.defaultTTL else ttl),
                    accessCount := 0, lastAccess := now }))
      (infoKey k) = some (.infoVal
        { key := k, size := (p.length : Int), mimeType := mime,
          createdAt := now,
          expiresAt := now + (if ttl ≤ 0 then cfg.defaultTTL else ttl),
          accessCount := 0, lastAccess := now }) :=
    storeGet_set_self _ _ _
  have hdata : storeGet
      (storeSet (storeSet c.store (dataKey k) (.payload p)) (infoKey k)
        (.infoVal { key := k, size := (p.length : Int), mimeType := mime,
                    createdAt := now,
                    expiresAt := now + (if ttl ≤ 0 then cfg.defaultTTL else ttl),
                    accessCount := 0, lastAccess := now }))
      (dataKey k) = some (.payload p) := by
    rw [storeGet_set_ne _ _ (dataKey_ne_infoKey k k)]
    exact storeGet_set_self _ _ _
  have hexp : ¬ now2 > now + (if ttl ≤ 0 then cfg.defaultTTL else ttl) := by
    rw [if_neg httl1]
    omega
  rw [getOp_hit hinfo hexp hdata]
  exact ⟨_, rfl, rfl, rfl, rfl⟩

/-- C1 witness: concrete round-trip through `setOp` and `getOp`. -/
theorem c1_set_get_roundtrip_witness :
    ((([7, 8] : List Nat).length : Int) ≤ (100 : Int) ∧ (0 : Int) < 10 ∧
      (5 : Int) < 0 + 10) ∧
    ((setOp initState { maxCacheSize := 100, defaultTTL := 50 } "a" [7, 8] "m"
        10 0).2 = none ∧
      ∃ fi, (getOp (setOp initState { maxCacheSize := 100, defaultTTL := 50 }
          "a" [7, 8] "m" 10 0).1 "a" 5).2 = .ok ([7, 8], fi) ∧
        fi.key = "a" ∧ fi.size = ((([7, 8] : List Nat).length : Int)) ∧
        fi.mimeType = "m") :=
  ⟨⟨by norm_num, by norm_num, by norm_num⟩,
   c1_set_get_roundtrip initState { maxCacheSize := 100, defaultTTL := 50 }
     "a" [7, 8] "m" 10 0 5 (by norm_num) (by norm_num) (by norm_num)⟩

/-- C5: a `Set` whose payload is strictly larger than the configured
`MaxCacheSize` fails with the size-exceeded error and leaves the cache state
(store and statistics) exactly unchanged. -/
theorem c5_size_exceeded_rejected (c : CacheState) (cfg : Config)
    (key : String) (data : List Nat) (mime : String) (ttl now : Int)
    (h : (data.length : Int) > cfg.maxCacheSize) :
    (setOp c cfg key data mime ttl now).2 = some .sizeExceeded ∧
    (setOp c cfg key data mime ttl now).1 = c := by
  simp only [setOp]
  rw [if_pos h]
  exact ⟨rfl, rfl⟩

/-- C5 witness: a three-byte payload against a two-byte limit. -/
theorem c5_size_exceeded_rejected_witness :
    ((([1, 2, 3] : List Nat).length : Int) >
        ({ maxCacheSize := 2, defaultTTL := 5 : Config }).maxCacheSize) ∧
    ((setOp initState { maxCacheSize := 2, defaultTTL := 5 } "k" [1, 2, 3] "m"
        10 0).2 = some .sizeExceeded ∧
      (setOp initState { maxCacheSize := 2, defaultTTL := 5 } "k" [1, 2, 3] "m"
        10 0).1 = initState) :=
  ⟨by norm_num,
   c5_size_exceeded_rejected initState { maxCacheSize := 2, defaultTTL := 5 }
     "k" [1, 2, 3] "m" 10 0 (by norm_num)⟩

/-- C2 counterexample: at time 1, `Get` of the expired entry under key a
fails with the expired error and leaves the miss rate untouched, while `Get`
of the absent key b fails with the not-found error and records a miss — the
two cases are distinguishable and only one updates the statistics. -/
theorem c2_counterexample :
    (getOp cExpired "a" 1).2 = .error .expired ∧
    (getOp cExpired "b" 1).2 = .error .notFound ∧
    (getOp cExpired "a" 1).2 ≠ (getOp cExpired "b" 1).2 ∧
    (getOp cExpired "a" 1).1.stats.missRate = cExpired.stats.missRate ∧
    (getOp cExpired "b" 1).1.stats.missRate ≠ cExpired.stats.missRate := by
  have hbk : storeGet cExpired.store (infoKey "b") = none := by decide
  have hak : storeGet cExpired.store (infoKey "a") = some (.infoVal fiEx) := by
    decide
  have hb : getOp cExpired "b" 1 =
      ({ cExpired with stats := updateStatsAfterMiss cExpired.stats },
       .error .notFound) := by
    simp [getOp, hbk]
  have ha : getOp cExpired "a" 1 = (cExpired, .error .expired) := by
    simp only [getOp, hak]
    rw [if_pos (by decide : (1 : Int) > fiEx.expiresAt)]
  refine ⟨?_, ?_, ?_, ?_, ?_⟩
  · rw [ha]
  · rw [hb]
  · rw [ha, hb]
    intro h
    exact absurd (Except.error.inj h) (by decide)
  · rw [ha]
  · rw [hb]
    norm_num [cExpired, zeroStats, updateStatsAfterMiss]

/-- C2 (amended): `Get` on an absent key fails with the not-found error and
records a miss; `Get` on an entry past its `expiresAt` fails with the
distinct expired error and changes nothing, recording no miss. -/
theorem c2_absent_vs_expired (c : CacheState) (k : String) (now : Int) :
    (storeGet c.store (infoKey k) = none →
      getOp c k now =
        ({ c with stats := updateStatsAfterMiss c.stats }, .error .notFound)) ∧
    (∀ fi, storeGet c.store (infoKey k) = some (.infoVal fi) →
      now > fi.expiresAt → getOp c k now = (c, .error .expired)) := by
  constructor
  · intro h
    simp [getOp, h]
  · intro fi h hexp
    simp only [getOp, h]
    rw [if_pos hexp]

/-- C2 witness: the amended behavior evaluated on the concrete expired
state, once through each branch. -/
theorem c2_absent_vs_expired_witness :
    (storeGet cExpired.store (infoKey "b") = none ∧
      getOp cExpired "b" 1 =
        ({ cExpired with stats := updateStatsAfterMiss cExpired.stats },
         .error .notFound)) ∧
    (storeGet cExpired.store (infoKey "a") = some (.infoVal fiEx) ∧
      (1 : Int) > fiEx.expiresAt ∧
      getOp cExpired "a" 1 = (cExpired, .error .expired)) :=
  ⟨⟨by decide, (c2_absent_vs_expired cExpired "b" 1).1 (by decide)⟩,
   ⟨by decide, by decide,
    (c2_absent_vs_expired cExpired "a" 1).2 fiEx (by decide) (by decide)⟩⟩

/-- C9: on an entry that is past its `expiresAt` but not yet swept, `Exists`
still answers true and `GetInfo` still returns the metadata record, while
`Get` on the same key fails. -/
theorem c9_exists_getinfo_ignore_expiry (c : CacheState) (k : String)
    (now : Int) (fi : FileInfo)
    (hinfo : storeGet c.store (infoKey k) = some (.infoVal fi))
    (hexp : now > fi.expiresAt) :
    existsOp c k = true ∧ getInfoOp c k = .ok { fi with key := k } ∧
    (getOp c k now).2 = .error .expired := by
  refine ⟨?_, ?_, ?_⟩
  · simp [existsOp, hinfo]
  · simp [getInfoOp, hinfo]
  · simp only [getOp, hinfo]
    rw [if_pos hexp]

/-- C9 witness: the expired concrete entry. -/
theorem c9_exists_getinfo_ignore_expiry_witness :
    (storeGet cExpired.store (infoKey "a") = some (.infoVal fiEx) ∧
      (1 : Int) > fiEx.expiresAt) ∧
    (existsOp cExpired "a" = true ∧
      getInfoOp cExpired "a" = .ok { fiEx with key := "a" } ∧
      (getOp cExpired "a" 1).2 = .error .expired) :=
  ⟨⟨by decide, by decide⟩,
   c9_exists_getinfo_ignore_expiry cExpired "a" 1 fiEx (by decide) (by decide)⟩

/-- C10: the metadata snapshot returned by a successful `Get` is the updated
record — access count incremented by one and last-access time set to this
access's time — and is exactly what is written back to the store. -/
theorem c10_get_returns_updated_access (c : CacheState) (k : String)
    (now : Int) (fi : FileInfo) (v : StoredValue)
    (hinfo : storeGet c.store (infoKey k) = some (.infoVal fi))
    (hexp : ¬ now > fi.expiresAt)
    (hdata : storeGet c.store (dataKey k) = some v) :
    ∃ fi2, (getOp c k now).2 = .ok (payloadBytes v, fi2) ∧
      fi2.accessCount = fi.accessCount + 1 ∧ fi2.lastAccess = now ∧
      storeGet (getOp c k now).1.store (infoKey k) = some (.infoVal fi2) := by
  rw [getOp_hit hinfo hexp hdata]
  exact ⟨_, rfl, rfl, rfl, storeGet_set_self _ _ _⟩

/-- C10 witness: the live concrete entry with stored access count 3. -/
theorem c10_get_returns_updated_access_witness :
    (storeGet cFresh.store (infoKey "a") = some (.infoVal fiFresh) ∧
      ¬ (1 : Int) > fiFresh.expiresAt ∧
      storeGet cFresh.store (dataKey "a") = some (.payload [9])) ∧
    (∃ fi2, (getOp cFresh "a" 1).2 = .ok (payloadBytes (.payload [9]), fi2) ∧
      fi2.accessCount = fiFresh.accessCount + 1 ∧ fi2.lastAccess = 1 ∧
      storeGet (getOp cFresh "a" 1).1.store (infoKey "a") =
        some (.infoVal fi2)) :=
  ⟨⟨by decide, by decide, by decide⟩,
   c10_get_returns_updated_access cFresh "a" 1 fiFresh (.payload [9])
     (by decide) (by decide) (by decide)⟩

/-- C6: the code's hit/miss statistics updates implement exactly the
running-average recurrence stated by the specification, including the
zero-total initialization cases. -/
theorem c6_rates_recurrence (s : Stats) :
    updateStatsAfterHit s = specRecordHit s ∧
    updateStatsAfterMiss s = specRecordMiss s :=
  ⟨rfl, rfl⟩

/-- Outcome of the cleanup scan on a store whose scanned bindings decode. -/
lemma collectExpired_ok {st : Store} (now : Int) (h : wellFormedScan st) :
    ∃ ks, collectExpired st now = .ok ks := by
  induction st with
  | nil => exact ⟨[], rfl⟩
  | cons p rest ih =>
      obtain ⟨k, v⟩ := p
      have hrest : wellFormedScan rest := fun q hq => h q (List.mem_cons_of_mem _ hq)
      obtain ⟨ks, hks⟩ := ih hrest
      by_cases hscan : isInfoScanKey k = true
      · have hv := h (k, v) (List.mem_cons_self _ _) hscan
        cases v with
        | infoVal fi =>
            refine ⟨if now > fi.expiresAt then stripInfoTag k :: ks else ks, ?_⟩
            simp only [collectExpired, hscan, if_true, hks]
        | payload d => simp [decodesAsInfo] at hv
        | statsVal s => simp [decodesAsInfo] at hv
        | corrupt => simp [decodesAsInfo] at hv
      · refine ⟨ks, ?_⟩
        simp [collectExpired, hscan, hks]

/-- C3 counterexample: on a store holding one corrupt metadata record,
`Cleanup` returns the decode error to its caller instead of swallowing it. -/
theorem c3_counterexample :
    (cleanupOp cCorrupt 0).2 = some .corruptMetadata := by decide

/-- C3 (amended): per-key delete failures in Cleanup's deletion phase are
swallowed and sweeping continues, so Cleanup returns no error whenever every
scanned metadata record decodes; but an unreadable or corrupt metadata
record met during the scan aborts the sweep and that error reaches the
caller. -/
theorem c3_cleanup_error_policy (c : CacheState) (now : Int)
    (h : wellFormedScan c.store) : (cleanupOp c now).2 = none := by
  obtain ⟨ks, hks⟩ := collectExpired_ok now h
  simp only [cleanupOp, hks]

/-- C3 witness: cleanup of the well-formed expired store reports no error. -/
theorem c3_cleanup_error_policy_witness :
    wellFormedScan cExpired.store ∧ (cleanupOp cExpired 1).2 = none :=
  ⟨by decide, c3_cleanup_error_policy cExpired 1 (by decide)⟩

/-- Keys recovered by the `List` scan are never empty, since the scan keeps
only storage keys strictly longer than the metadata tag. -/
lemma listScan_keys_ne_empty {st : Store} {fs : List FileInfo}
    (h : listScan st = .ok fs) : ∀ fi ∈ fs, fi.key ≠ "" := by
  induction st generalizing fs with
  | nil =>
      cases h
      intro fi hfi
      cases hfi
  | cons p rest ih =>
      obtain ⟨k, v⟩ := p
      by_cases hscan : isInfoScanKey k = true
      · cases v with
        | infoVal fi =>
            cases hrest : listScan rest with
            | ok fs' =>
                have h2 : listScan ((k, .infoVal fi) :: rest) =
                    .ok ({ fi with key := stripInfoTag k } :: fs') := by
                  simp [listScan, hscan, hrest]
                rw [h2] at h
                cases h
                intro fi2 hfi2
                rcases List.mem_cons.mp hfi2 with he | hm
                · rw [he]
                  exact (isInfoScanKey_elim hscan).2
                · exact ih hrest fi2 hm
            | error e =>
                have h2 : listScan ((k, .infoVal fi) :: rest) = .error e := by
                  simp [listScan, hscan, hrest]
                rw [h2] at h
                cases h
        | payload d =>
            have h2 : listScan ((k, StoredValue.payload d) :: rest) =
                .error .corruptMetadata := by
              simp [listScan, hscan]
            rw [h2] at h
            cases h
        | statsVal s =>
            have h2 : listScan ((k, StoredValue.statsVal s) :: rest) =
                .error .corruptMetadata := by
              simp [listScan, hscan]
            rw [h2] at h
            cases h
        | corrupt =>
            have h2 : listScan ((k, StoredValue.corrupt) :: rest) =
                .error .corruptMetadata := by
              simp [listScan, hscan]
            rw [h2] at h
            cases h
      · have h2 : listScan ((k, v) :: rest) = listScan rest := by
          simp [listScan, hscan]
        rw [h2] at h
        exact ih h

/-- Keys collected by the cleanup scan are never empty. -/
lemma collectExpired_keys_ne_empty {st : Store} {now : Int} {ks : List String}
    (h : collectExpired st now = .ok ks) : ∀ k ∈ ks, k ≠ "" := by
  induction st generalizing ks with
  | nil =>
      cases h
      intro k hk
      cases hk
  | cons p rest ih =>
      obtain ⟨k, v⟩ := p
      by_cases hscan : isInfoScanKey k = true
      · cases v with
        | infoVal fi =>
            cases hrest : collectExpired rest now with
            | ok ks' =>
                have h2 : collectExpired ((k, .infoVal fi) :: rest) now =
                    .ok (if now > fi.expiresAt then stripInfoTag k :: ks' else ks') := by
                  simp [collectExpired, hscan, hrest]
                rw [h2] at h
                cases h
                by_cases hexp : now > fi.expiresAt
                · rw [if_pos hexp]
                  intro k2 hk2
                  rcases List.mem_cons.mp hk2 with he | hm
                  · rw [he]
                    exact (isInfoScanKey_elim hscan).2
                  · exact ih hrest k2 hm
                · rw [if_neg hexp]
                  exact ih hrest
            | error e =>
                have h2 : collectExpired ((k, .infoVal fi) :: rest) now = .error e := by
                  simp [collectExpired, hscan, hrest]
                rw [h2] at h
                cases h
        | payload d =>
            have h2 : collectExpired ((k, StoredValue.payload d) :: rest) now =
                .error .corruptMetadata := by
              simp [collectExpired, hscan]
            rw [h2] at h
            cases h
        | statsVal s =>
            have h2 : collectExpired ((k, StoredValue.statsVal s) :: rest) now =
                .error .corruptMetadata := by
              simp [collectExpired, hscan]
            rw [h2] at h
            cases h
        | corrupt =>
            have h2 : collectExpired ((k, StoredValue.corrupt) :: rest) now =
                .error .corruptMetadata := by
              simp [collectExpired, hscan]
            rw [h2] at h
            cases h
      · have h2 : collectExpired ((k, v) :: rest) now = collectExpired rest now := by
          simp [collectExpired, hscan]
        rw [h2] at h
        exact ih h

/-- A `Delete` of key k touches no storage key other than the two records of
k. -/
lemma deleteOp_storeGet_ne {c : CacheState} {k q : String}
    (h1 : q ≠ dataKey k) (h2 : q ≠ infoKey k) :
    storeGet (deleteOp c k).1.store q = storeGet c.store q := by
  cases hv : storeGet c.store (infoKey k) with
  | none =>
      simp only [deleteOp, hv]
      rw [storeGet_delete_ne _ h2, storeGet_delete_ne _ h1]
  | some v =>
      cases v with
      | infoVal fi =>
          simp only [deleteOp, hv]
          rw [storeGet_delete_ne _ h2, storeGet_delete_ne _ h1]
      | payload d => simp only [deleteOp, hv]
      | statsVal s => simp only [deleteOp, hv]
      | corrupt => simp only [deleteOp, hv]

/-- Cleanup's deletion phase touches no storage key outside the records of
the keys it deletes. -/
lemma deleteMany_storeGet_ne {q : String} (c : CacheState) (ks : List String)
    (h : ∀ k ∈ ks, q ≠ dataKey k ∧ q ≠ infoKey k) :
    storeGet (deleteMany c ks).store q = storeGet c.store q := by
  induction ks generalizing c with
  | nil => rfl
  | cons k rest ih =>
      have hk := h k (List.mem_cons_self _ _)
      have hrest : ∀ k2 ∈ rest, q ≠ dataKey k2 ∧ q ≠ infoKey k2 :=
        fun k2 hk2 => h k2 (List.mem_cons_of_mem _ hk2)
      show storeGet (deleteMany (deleteOp c k).1 rest).store q = _
      rw [ih _ hrest, deleteOp_storeGet_ne hk.1 hk.2]

/-- A sweep leaves the two records of the empty logical key untouched. -/
lemma cleanupOp_empty_key_preserved (c : CacheState) (now : Int) :
    storeGet (cleanupOp c now).1.store (infoKey "") =
      storeGet c.store (infoKey "") ∧
    storeGet (cleanupOp c now).1.store (dataKey "") =
      storeGet c.store (dataKey "") := by
  cases hks : collectExpired c.store now with
  | error e => simp [cleanupOp, hks]
  | ok ks =>
      have hne := collectExpired_keys_ne_empty hks
      have hinfo : ∀ k ∈ ks, infoKey "" ≠ dataKey k ∧ infoKey "" ≠ infoKey k :=
        fun k hk => ⟨(dataKey_ne_infoKey k "").symm,
          fun he => hne k hk (infoKey_inj he).symm⟩
      have hdata : ∀ k ∈ ks, dataKey "" ≠ dataKey k ∧ dataKey "" ≠ infoKey k :=
        fun k hk => ⟨fun he => hne k hk (dataKey_inj he).symm,
          dataKey_ne_infoKey "" k⟩
      simp only [cleanupOp, hks]
      constructor
      · rw [storeGet_set_ne _ _ (statsKey_ne_infoKey "").symm]
        exact deleteMany_storeGet_ne c ks hinfo
      · rw [storeGet_set_ne _ _ (statsKey_ne_dataKey "").symm]
        exact deleteMany_storeGet_ne c ks hdata

/-- C8: `Set` accepts the empty key without error and still increments the
aggregate counters, yet the resulting entry is invisible to `List` (no
returned record ever carries the empty key) and is never removed by a sweep:
`Cleanup` leaves both records of the empty key exactly as they were. -/
theorem c8_empty_key_invisible (c : CacheState) (cfg : Config) (p : List Nat)
    (mime : String) (ttl now : Int)
    (hsz : (p.length : Int) ≤ cfg.maxCacheSize) :
    (setOp c cfg "" p mime ttl now).2 = none ∧
    (setOp c cfg "" p mime ttl now).1.stats.totalFiles =
      c.stats.totalFiles + 1 ∧
    (setOp c cfg "" p mime ttl now).1.stats.totalSize =
      c.stats.totalSize + (p.length : Int) ∧
    (∃ fi, storeGet (setOp c cfg "" p mime ttl now).1.store (infoKey "") =
      some (.infoVal fi)) ∧
    (∀ c2 fs, listOp c2 = .ok fs → ∀ fi ∈ fs, fi.key ≠ "") ∧
    (∀ c2 now2,
      storeGet (cleanupOp c2 now2).1.store (infoKey "") =
        storeGet c2.store (infoKey "") ∧
      storeGet (cleanupOp c2 now2).1.store (dataKey "") =
        storeGet c2.store (dataKey "")) := by
  rw [setOp_ok c "" mime ttl now hsz]
  refine ⟨rfl, rfl, rfl, ⟨_, storeGet_set_self _ _ _⟩, ?_, ?_⟩
  · intro c2 fs hfs
    exact listScan_keys_ne_empty hfs
  · intro c2 now2
    exact cleanupOp_empty_key_preserved c2 now2

/-- C8 witness: the empty key stored concretely, then listed and swept. -/
theorem c8_empty_key_invisible_witness :
    ((([7] : List Nat).length : Int) ≤ (100 : Int)) ∧
    ((setOp initState { maxCacheSize := 100, defaultTTL := 50 } "" [7] "m"
        10 0).2 = none ∧
      (setOp initState { maxCacheSize := 100, defaultTTL := 50 } "" [7] "m"
        10 0).1.stats.totalFiles = initState.stats.totalFiles + 1 ∧
      (setOp initState { maxCacheSize := 100, defaultTTL := 50 } "" [7] "m"
        10 0).1.stats.totalSize =
        initState.stats.totalSize + (([7] : List Nat).length : Int) ∧
      (∃ fi, storeGet (setOp initState
          { maxCacheSize := 100, defaultTTL := 50 } "" [7] "m" 10 0).1.store
          (infoKey "") = some (.infoVal fi)) ∧
      (∀ c2 fs, listOp c2 = .ok fs → ∀ fi ∈ fs, fi.key ≠ "") ∧
      (∀ c2 now2,
        storeGet (cleanupOp c2 now2).1.store (infoKey "") =
          storeGet c2.store (infoKey "") ∧
        storeGet (cleanupOp c2 now2).1.store (dataKey "") =
          storeGet c2.store (dataKey ""))) :=
  ⟨by norm_num,
   c8_empty_key_invisible initState { maxCacheSize := 100, defaultTTL := 50 }
     [7] "m" 10 0 (by norm_num)⟩

/-- Outcome of a `Set` whose payload exceeds the size limit. -/
lemma setOp_err {cfg : Config} {data : List Nat} (c : CacheState)
    (key mime : String) (ttl now : Int)
    (hsz : (data.length : Int) > cfg.maxCacheSize) :
    setOp c cfg key data mime ttl now = (c, some .sizeExceeded) := by
  simp only [setOp]
  rw [if_pos hsz]

lemma setOp_pairedInv (cfg : Config) (c : CacheState) (key : String)
    (data : List Nat) (mime : String) (ttl now : Int) (h : pairedInv c) :
    pairedInv (setOp c cfg key data mime ttl now).1 := by
  by_cases hsz : (data.length : Int) > cfg.maxCacheSize
  · rw [setOp_err c key mime ttl now hsz]
    exact h
  · rw [setOp_ok c key mime ttl now (not_lt.mp hsz)]
    intro k
    by_cases hk : k = key
    · subst hk
      rw [storeGet_set_ne _ _ (dataKey_ne_infoKey k k)]
      rw [storeGet_set_self, storeGet_set_self]
      simp
    · have h1 : dataKey k ≠ infoKey key := dataKey_ne_infoKey k key
      have h2 : dataKey k ≠ dataKey key := fun he => hk (dataKey_inj he)
      have h3 : infoKey k ≠ infoKey key := fun he => hk (infoKey_inj he)
      have h4 : infoKey k ≠ dataKey key := (dataKey_ne_infoKey key k).symm
      rw [storeGet_set_ne _ _ h1, storeGet_set_ne _ _ h2,
        storeGet_set_ne _ _ h3, storeGet_set_ne _ _ h4]
      exact h k

lemma getOp_pairedInv (c : CacheState) (key : String) (now : Int)
    (h : pairedInv c) : pairedInv (getOp c key now).1 := by
  cases hv : storeGet c.store (infoKey key) with
  | none =>
      simp only [getOp, hv]
      exact h
  | some v =>
      cases v with
      | infoVal fi =>
          by_cases hexp : now > fi.expiresAt
          · simp only [getOp, hv]
            rw [if_pos hexp]
            exact h
          · cases hd : storeGet c.store (dataKey key) with
            | none =>
                simp only [getOp, hv, hd]
                rw [if_neg hexp]
                exact h
            | some w =>
                simp only [getOp, hv, hd]
                rw [if_neg hexp]
                intro k2
                by_cases hk2 : k2 = key
                · subst hk2
                  rw [storeGet_set_ne _ _ (dataKey_ne_infoKey k2 k2),
                    storeGet_set_self, hd]
                  simp
                · have h3 : infoKey k2 ≠ infoKey key :=
                    fun he => hk2 (infoKey_inj he)
                  rw [storeGet_set_ne _ _ (dataKey_ne_infoKey k2 key),
                    storeGet_set_ne _ _ h3]
                  exact h k2
      | payload d =>
          simp only [getOp, hv]
          exact h
      | statsVal s =>
          simp only [getOp, hv]
          exact h
      | corrupt =>
          simp only [getOp, hv]
          exact h

lemma deleteOp_pairedInv (c : CacheState) (key : String) (h : pairedInv c) :
    pairedInv (deleteOp c key).1 := by
  have hdel : ∀ st2 : Store, st2 =
      storeDelete (storeDelete c.store (dataKey key)) (infoKey key) →
      ∀ k2, (storeGet st2 (dataKey k2)).isSome ↔
        (storeGet st2 (infoKey k2)).isSome := by
    intro st2 hst2 k2
    subst hst2
    by_cases hk2 : k2 = key
    · subst hk2
      rw [storeGet_delete_ne _ (dataKey_ne_infoKey k2 k2), storeGet_delete_self,
        storeGet_delete_self]
    · have h1 : infoKey k2 ≠ infoKey key := fun he => hk2 (infoKey_inj he)
      have h2 : infoKey k2 ≠ dataKey key := (dataKey_ne_infoKey key k2).symm
      have h3 : dataKey k2 ≠ infoKey key := dataKey_ne_infoKey k2 key
      have h4 : dataKey k2 ≠ dataKey key := fun he => hk2 (dataKey_inj he)
      rw [storeGet_delete_ne _ h3, storeGet_delete_ne _ h4,
        storeGet_delete_ne _ h1, storeGet_delete_ne _ h2]
      exact h k2
  cases hv : storeGet c.store (infoKey key) with
  | none =>
      simp only [deleteOp, hv]
      exact hdel _ rfl
  | some v =>
      cases v with
      | infoVal fi =>
          simp only [deleteOp, hv]
          exact hdel _ rfl
      | payload d =>
          simp only [deleteOp, hv]
          exact h
      | statsVal s =>
          simp only [deleteOp, hv]
          exact h
      | corrupt =>
          simp only [deleteOp, hv]
          exact h

lemma deleteMany_pairedInv (c : CacheState) (ks : List String)
    (h : pairedInv c) : pairedInv (deleteMany c ks) := by
  induction ks generalizing c with
  | nil => exact h
  | cons k rest ih =>
      show pairedInv (deleteMany (deleteOp c k).1 rest)
      exact ih _ (deleteOp_pairedInv c k h)

lemma cleanupOp_pairedInv (c : CacheState) (now : Int) (h : pairedInv c) :
    pairedInv (cleanupOp c now).1 := by
  cases hks : collectExpired c.store now with
  | error e =>
      simp only [cleanupOp, hks]
      exact h
  | ok ks =>
      simp only [cleanupOp, hks]
      intro k
      rw [storeGet_set_ne _ _ (statsKey_ne_dataKey k).symm,
        storeGet_set_ne _ _ (statsKey_ne_infoKey k).symm]
      exact deleteMany_pairedInv c ks h k

lemma applyOp_pairedInv (cfg : Config) (c : CacheState) (op : Op)
    (h : pairedInv c) : pairedInv (applyOp cfg c op) := by
  cases op with
  | oset k d m t n => exact setOp_pairedInv cfg c k d m t n h
  | oget k n => exact getOp_pairedInv c k n h
  | odel k => exact deleteOp_pairedInv c k h
  | ocleanup n => exact cleanupOp_pairedInv c n h

lemma applyOps_pairedInv (cfg : Config) (c : CacheState) (ops : List Op)
    (h : pairedInv c) : pairedInv (applyOps cfg c ops) := by
  induction ops generalizing c with
  | nil => exact h
  | cons op rest ih => exact ih _ (applyOp_pairedInv cfg c op h)

/-- C4: after any sequence of Set, Get, Delete and Cleanup operations run
from the freshly constructed cache, a payload record for a key is present in
the store exactly when the metadata record for that key is present. -/
theorem c4_payload_iff_metadata (cfg : Config) (ops : List Op) (k : String) :
    (storeGet (applyOps cfg initState ops).store (dataKey k)).isSome ↔
    (storeGet (applyOps cfg initState ops).store (infoKey k)).isSome :=
  applyOps_pairedInv cfg initState ops (fun _ => Iff.rfl) k

lemma isInfoBinding_infoKey (k : String) : isInfoBinding (infoKey k) = true := by
  have hpd : fileInfoPfx.data = ['i', 'n', 'f', 'o', ':'] := by decide
  simp [isInfoBinding, infoKey_data, hpd]

lemma isInfoBinding_dataKey (k : String) : isInfoBinding (dataKey k) = false := by
  have hpd : fileInfoPfx.data = ['i', 'n', 'f', 'o', ':'] := by decide
  simp [isInfoBinding, dataKey_data, hpd]

lemma isInfoBinding_statsKey : isInfoBinding statsKey = false := by decide

lemma infoCount_delete_le (st : Store) (q : String) :
    infoCount (storeDelete st q) ≤ infoCount st := by
  induction st with
  | nil => exact Nat.le_refl 0
  | cons p rest ih =>
      obtain ⟨k, v⟩ := p
      by_cases hk : k = q
      · simp only [storeDelete, if_pos hk, infoCount]
        omega
      · simp only [storeDelete, if_neg hk, infoCount]
        omega

lemma infoCount_delete_not_info (st : Store) {q : String}
    (h : isInfoBinding q = false) :
    infoCount (storeDelete st q) = infoCount st := by
  induction st with
  | nil => rfl
  | cons p rest ih =>
      obtain ⟨k, v⟩ := p
      by_cases hk : k = q
      · subst hk
        simp only [storeDelete, if_pos rfl, infoCount, h]
        simpa using ih
      · simp only [storeDelete, if_neg hk, infoCount, ih]

lemma infoCount_pos_of_get {st : Store} {k : String} {v : StoredValue}
    (h : storeGet st (infoKey k) = some v) : 0 < infoCount st := by
  induction st with
  | nil => cases h
  | cons p rest ih =>
      obtain ⟨k2, w⟩ := p
      by_cases hk : k2 = infoKey k
      · subst hk
        simp only [infoCount, isInfoBinding_infoKey, if_pos]
        omega
      · simp only [storeGet, if_neg hk] at h
        simp only [infoCount]
        have := ih h
        omega

lemma infoCount_delete_info_lt {st : Store} {k : String} {v : StoredValue}
    (h : storeGet st (infoKey k) = some v) :
    infoCount (storeDelete st (infoKey k)) < infoCount st := by
  induction st with
  | nil => cases h
  | cons p rest ih =>
      obtain ⟨k2, w⟩ := p
      by_cases hk : k2 = infoKey k
      · subst hk
        simp only [storeDelete, if_pos rfl, infoCount, isInfoBinding_infoKey,
          if_pos]
        have := infoCount_delete_le rest (infoKey k)
        omega
      · simp only [storeGet, if_neg hk] at h
        simp only [storeDelete, if_neg hk, infoCount]
        have := ih h
        omega

lemma storeDelete_eq_of_get_none {st : Store} {q : String}
    (h : storeGet st q = none) : storeDelete st q = st := by
  induction st with
  | nil => rfl
  | cons p rest ih =>
      obtain ⟨k, v⟩ := p
      by_cases hk : k = q
      · subst hk
        simp [storeGet] at h
      · simp only [storeGet, if_neg hk] at h
        simp only [storeDelete, if_neg hk, ih h]

lemma updateStatsAfterHit_totalFiles (s : Stats) :
    (updateStatsAfterHit s).totalFiles = s.totalFiles := by
  simp only [updateStatsAfterHit]
  split <;> rfl

lemma updateStatsAfterMiss_totalFiles (s : Stats) :
    (updateStatsAfterMiss s).totalFiles = s.totalFiles := by
  simp only [updateStatsAfterMiss]
  split <;> rfl

lemma updateStatsAfterDelete_totalFiles (s : Stats) (z : Int) :
    (updateStatsAfterDelete s z).totalFiles =
      if s.totalFiles > 0 then s.totalFiles - 1 else s.totalFiles := by
  simp only [updateStatsAfterDelete]
  split <;> split <;> rfl

lemma infoCount_storeSet_info (st : Store) (k : String) (v : StoredValue) :
    infoCount (storeSet st (infoKey k) v) =
      1 + infoCount (storeDelete st (infoKey k)) := by
  simp only [storeSet, infoCount, isInfoBinding_infoKey, if_pos]

lemma infoCount_storeSet_not_info (st : Store) {q : String} (v : StoredValue)
    (h : isInfoBinding q = false) : infoCount (storeSet st q v) = infoCount st := by
  simp only [storeSet, infoCount, h]
  rw [infoCount_delete_not_info st h]
  simp

lemma setOp_statsTotalInv (cfg : Config) (c : CacheState) (key : String)
    (data : List Nat) (mime : String) (ttl now : Int) (h : statsTotalInv c) :
    statsTotalInv (setOp c cfg key data mime ttl now).1 := by
  by_cases hsz : (data.length : Int) > cfg.maxCacheSize
  · rw [setOp_err c key mime ttl now hsz]
    exact h
  · rw [setOp_ok c key mime ttl now (not_lt.mp hsz)]
    show (infoCount _ : Int) ≤ _
    rw [infoCount_storeSet_info]
    have h2 := infoCount_delete_le
      (storeSet c.store (dataKey key) (.payload data)) (infoKey key)
    have h3 : infoCount (storeSet c.store (dataKey key) (.payload data)) =
        infoCount c.store :=
      infoCount_storeSet_not_info c.store _ (isInfoBinding_dataKey key)
    have h4 : (updateStatsAfterSet c.stats (data.length : Int)).totalFiles =
        c.stats.totalFiles + 1 := rfl
    rw [h4]
    have h5 := h
    unfold statsTotalInv at h5
    omega

lemma getOp_statsTotalInv (c : CacheState) (key : String) (now : Int)
    (h : statsTotalInv c) : statsTotalInv (getOp c key now).1 := by
  cases hv : storeGet c.store (infoKey key) with
  | none =>
      simp only [getOp, hv]
      show (infoCount c.store : Int) ≤ (updateStatsAfterMiss c.stats).totalFiles
      rw [updateStatsAfterMiss_totalFiles]
      exact h
  | some v =>
      cases v with
      | infoVal fi =>
          by_cases hexp : now > fi.expiresAt
          · simp only [getOp, hv]
            rw [if_pos hexp]
            exact h
          · cases hd : storeGet c.store (dataKey key) with
            | none =>
                simp only [getOp, hv, hd]
                rw [if_neg hexp]
                show (infoCount c.store : Int) ≤
                  (updateStatsAfterMiss c.stats).totalFiles
                rw [updateStatsAfterMiss_totalFiles]
                exact h
            | some w =>
                simp only [getOp, hv, hd]
                rw [if_neg hexp]
                show (infoCount _ : Int) ≤ (updateStatsAfterHit c.stats).totalFiles
                rw [updateStatsAfterHit_totalFiles, infoCount_storeSet_info]
                have h2 := infoCount_delete_info_lt hv
                have h5 := h
                unfold statsTotalInv at h5
                omega
      | payload d =>
          simp only [getOp, hv]
          exact h
      | statsVal s =>
          simp only [getOp, hv]
          exact h
      | corrupt =>
          simp only [getOp, hv]
          exact h

lemma deleteOp_statsTotalInv (c : CacheState) (key : String)
    (h : statsTotalInv c) : statsTotalInv (deleteOp c key).1 := by
  have hne : infoKey key ≠ dataKey key := (dataKey_ne_infoKey key key).symm
  cases hv : storeGet c.store (infoKey key) with
  | none =>
      simp only [deleteOp, hv]
      show (infoCount _ : Int) ≤ c.stats.totalFiles
      have h1 : infoCount (storeDelete c.store (dataKey key)) = infoCount c.store :=
        infoCount_delete_not_info c.store (isInfoBinding_dataKey key)
      have h2 : storeGet (storeDelete c.store (dataKey key)) (infoKey key) = none := by
        rw [storeGet_delete_ne _ hne]
        exact hv
      rw [storeDelete_eq_of_get_none h2, h1]
      exact h
  | some v =>
      cases v with
      | infoVal fi =>
          simp only [deleteOp, hv]
          show (infoCount (storeDelete (storeDelete c.store (dataKey key)) (infoKey key)) : Int) ≤ (updateStatsAfterDelete c.stats fi.size).totalFiles
          rw [updateStatsAfterDelete_totalFiles]
          have h1 : infoCount (storeDelete c.store (dataKey key)) = infoCount c.store :=
            infoCount_delete_not_info c.store (isInfoBinding_dataKey key)
          have h2 : storeGet (storeDelete c.store (dataKey key)) (infoKey key) =
              some (.infoVal fi) := by
            rw [storeGet_delete_ne _ hne]
            exact hv
          have h3 := infoCount_delete_info_lt h2
          have h4 := infoCount_pos_of_get hv
          have h5 := h
          unfold statsTotalInv at h5
          have h6 : (0 : Int) < c.stats.totalFiles := by omega
          rw [if_pos h6]
          omega
      | payload d =>
          simp only [deleteOp, hv]
          exact h
      | statsVal s =>
          simp only [deleteOp, hv]
          exact h
      | corrupt =>
          simp only [deleteOp, hv]
          exact h

lemma deleteMany_statsTotalInv (c : CacheState) (ks : List String)
    (h : statsTotalInv c) : statsTotalInv (deleteMany c ks) := by
  induction ks generalizing c with
  | nil => exact h
  | cons k rest ih =>
      show statsTotalInv (deleteMany (deleteOp c k).1 rest)
      exact ih _ (deleteOp_statsTotalInv c k h)

lemma cleanupOp_statsTotalInv (c : CacheState) (now : Int)
    (h : statsTotalInv c) : statsTotalInv (cleanupOp c now).1 := by
  cases hks : collectExpired c.store now with
  | error e =>
      simp only [cleanupOp, hks]
      exact h
  | ok ks =>
      simp only [cleanupOp, hks]
      show (infoCount _ : Int) ≤ _
      rw [infoCount_storeSet_not_info _ _ isInfoBinding_statsKey]
      exact deleteMany_statsTotalInv c ks h

lemma applyOp_statsTotalInv (cfg : Config) (c : CacheState) (op : Op)
    (h : statsTotalInv c) : statsTotalInv (applyOp cfg c op) := by
  cases op with
  | oset k d m t n => exact setOp_statsTotalInv cfg c k d m t n h
  | oget k n => exact getOp_statsTotalInv c k n h
  | odel k => exact deleteOp_statsTotalInv c k h
  | ocleanup n => exact cleanupOp_statsTotalInv c n h

lemma setOp_ok_totalFiles {cfg : Config} {data : List Nat} (c : CacheState)
    (key mime : String) (ttl now : Int)
    (hsz : (data.length : Int) ≤ cfg.maxCacheSize) :
    (setOp c cfg key data mime ttl now).1.stats.totalFiles =
      c.stats.totalFiles + 1 := by
  rw [setOp_ok c key mime ttl now hsz]
  rfl

lemma deleteOp_present_totalFiles {c : CacheState} {key : String}
    {fi : FileInfo} (hpres : storeGet c.store (infoKey key) = some (.infoVal fi))
    (hinv : statsTotalInv c) :
    (deleteOp c key).1.stats.totalFiles = c.stats.totalFiles - 1 := by
  simp only [deleteOp, hpres]
  show (updateStatsAfterDelete c.stats fi.size).totalFiles = _
  rw [updateStatsAfterDelete_totalFiles]
  have h4 := infoCount_pos_of_get hpres
  have h5 := hinv
  unfold statsTotalInv at h5
  have h6 : (0 : Int) < c.stats.totalFiles := by omega
  rw [if_pos h6]

lemma getOp_totalFiles_eq (c : CacheState) (key : String) (now : Int) :
    (getOp c key now).1.stats.totalFiles = c.stats.totalFiles := by
  cases hv : storeGet c.store (infoKey key) with
  | none =>
      simp only [getOp, hv]
      exact updateStatsAfterMiss_totalFiles c.stats
  | some v =>
      cases v with
      | infoVal fi =>
          by_cases hexp : now > fi.expiresAt
          · simp only [getOp, hv]
            rw [if_pos hexp]
          · cases hd : storeGet c.store (dataKey key) with
            | none =>
                simp only [getOp, hv, hd]
                rw [if_neg hexp]
                exact updateStatsAfterMiss_totalFiles c.stats
            | some w =>
                simp only [getOp, hv, hd]
                rw [if_neg hexp]
                exact updateStatsAfterHit_totalFiles c.stats
      | payload d => simp only [getOp, hv]
      | statsVal s => simp only [getOp, hv]
      | corrupt => simp only [getOp, hv]

lemma setOp_totalFiles_nonneg (cfg : Config) (c : CacheState) (key : String)
    (data : List Nat) (mime : String) (ttl now : Int)
    (h : 0 ≤ c.stats.totalFiles) :
    0 ≤ (setOp c cfg key data mime ttl now).1.stats.totalFiles := by
  by_cases hsz : (data.length : Int) > cfg.maxCacheSize
  · rw [setOp_err c key mime ttl now hsz]
    exact h
  · rw [setOp_ok_totalFiles c key mime ttl now (not_lt.mp hsz)]
    omega

lemma deleteOp_totalFiles_nonneg (c : CacheState) (key : String)
    (h : 0 ≤ c.stats.totalFiles) :
    0 ≤ (deleteOp c key).1.stats.totalFiles := by
  cases hv : storeGet c.store (infoKey key) with
  | none =>
      simp only [deleteOp, hv]
      exact h
  | some v =>
      cases v with
      | infoVal fi =>
          simp only [deleteOp, hv]
          show 0 ≤ (updateStatsAfterDelete c.stats fi.size).totalFiles
          rw [updateStatsAfterDelete_totalFiles]
          split <;> omega
      | payload d => simp only [deleteOp, hv]; exact h
      | statsVal s => simp only [deleteOp, hv]; exact h
      | corrupt => simp only [deleteOp, hv]; exact h

lemma deleteMany_totalFiles_nonneg (c : CacheState) (ks : List String)
    (h : 0 ≤ c.stats.totalFiles) :
    0 ≤ (deleteMany c ks).stats.totalFiles := by
  induction ks generalizing c with
  | nil => exact h
  | cons k rest ih =>
      show 0 ≤ (deleteMany (deleteOp c k).1 rest).stats.totalFiles
      exact ih _ (deleteOp_totalFiles_nonneg c k h)

lemma cleanupOp_totalFiles_nonneg (c : CacheState) (now : Int)
    (h : 0 ≤ c.stats.totalFiles) :
    0 ≤ (cleanupOp c now).1.stats.totalFiles := by
  cases hks : collectExpired c.store now with
  | error e =>
      simp only [cleanupOp, hks]
      exact h
  | ok ks =>
      simp only [cleanupOp, hks]
      exact deleteMany_totalFiles_nonneg c ks h

lemma applyOp_totalFiles_nonneg (cfg : Config) (c : CacheState) (op : Op)
    (h : 0 ≤ c.stats.totalFiles) :
    0 ≤ (applyOp cfg c op).stats.totalFiles := by
  cases op with
  | oset k d m t n => exact setOp_totalFiles_nonneg cfg c k d m t n h
  | oget k n =>
      show 0 ≤ (getOp c k n).1.stats.totalFiles
      rw [getOp_totalFiles_eq]
      exact h
  | odel k => exact deleteOp_totalFiles_nonneg c k h
  | ocleanup n => exact cleanupOp_totalFiles_nonneg c n h

lemma applyOps_totalFiles_nonneg (cfg : Config) (c : CacheState)
    (ops : List Op) (h : 0 ≤ c.stats.totalFiles) :
    0 ≤ (applyOps cfg c ops).stats.totalFiles := by
  induction ops generalizing c with
  | nil => exact h
  | cons op rest ih => exact ih _ (applyOp_totalFiles_nonneg cfg c op h)

lemma goodTrace_totalFiles {cfg : Config} {c : CacheState} {ops : List Op}
    (h : GoodTrace cfg c ops) (hinv : statsTotalInv c) :
    (applyOps cfg c ops).stats.totalFiles =
      c.stats.totalFiles + (countSets ops : Int) - (countDels ops : Int) := by
  induction h with
  | nil c2 => simp [applyOps, countSets, countDels]
  | @gset c2 ops2 k d m t n hsz htail ih =>
      have hinv2 : statsTotalInv (applyOp cfg c2 (.oset k d m t n)) :=
        setOp_statsTotalInv cfg c2 k d m t n hinv
      have hstep : applyOps cfg c2 (Op.oset k d m t n :: ops2) =
          applyOps cfg (applyOp cfg c2 (.oset k d m t n)) ops2 := rfl
      rw [hstep, ih hinv2]
      have htf : (applyOp cfg c2 (Op.oset k d m t n)).stats.totalFiles =
          c2.stats.totalFiles + 1 :=
        setOp_ok_totalFiles c2 k m t n hsz
      rw [htf]
      have hcs : countSets (Op.oset k d m t n :: ops2) = countSets ops2 + 1 := rfl
      have hcd : countDels (Op.oset k d m t n :: ops2) = countDels ops2 := rfl
      rw [hcs, hcd]
      push_cast
      ring
  | @gdel c2 ops2 k fi hpres htail ih =>
      have hinv2 : statsTotalInv (applyOp cfg c2 (.odel k)) :=
        deleteOp_statsTotalInv c2 k hinv
      have hstep : applyOps cfg c2 (Op.odel k :: ops2) =
          applyOps cfg (applyOp cfg c2 (.odel k)) ops2 := rfl
      rw [hstep, ih hinv2]
      have htf : (applyOp cfg c2 (Op.odel k)).stats.totalFiles =
          c2.stats.totalFiles - 1 :=
        deleteOp_present_totalFiles hpres hinv
      rw [htf]
      have hcs : countSets (Op.odel k :: ops2) = countSets ops2 := rfl
      have hcd : countDels (Op.odel k :: ops2) = countDels ops2 + 1 := rfl
      rw [hcs, hcd]
      push_cast
      ring

/-- C7 counterexample: one successful Set followed by one (error-free) Delete
of an absent key gives N = M = 1 but leaves totalFiles at 1, not N - M = 0 —
a Delete of an absent key does not decrement the counter. -/
theorem c7_counterexample :
    countSets opsBad = 1 ∧ countDels opsBad = 1 ∧
    (setOp initState cfgEx "a" [7] "m" 10 0).2 = none ∧
    (deleteOp (setOp initState cfgEx "a" [7] "m" 10 0).1 "b").2 = none ∧
    (applyOps cfgEx initState opsBad).stats.totalFiles = 1 ∧
    (applyOps cfgEx initState opsBad).stats.totalFiles ≠
      (countSets opsBad : Int) - (countDels opsBad : Int) := by
  decide

/-- C7 (amended): starting from zero statistics, after N successful Sets and
M Deletes each of a key whose metadata record is present at the moment of the
delete, totalFiles equals N - M; and totalFiles stays nonnegative after every
sequence of operations. -/
theorem c7_totalFiles_counts (cfg : Config) (ops ops2 : List Op)
    (h : GoodTrace cfg initState ops) :
    (applyOps cfg initState ops).stats.totalFiles =
      (countSets ops : Int) - (countDels ops : Int) ∧
    0 ≤ (applyOps cfg initState ops2).stats.totalFiles := by
  constructor
  · have hinv : statsTotalInv initState := by
      show ((infoCount [] : Nat) : Int) ≤ (0 : Int)
      simp [infoCount]
    have h2 := goodTrace_totalFiles h hinv
    rw [h2]
    have h0 : initState.stats.totalFiles = 0 := rfl
    rw [h0]
    ring
  · exact applyOps_totalFiles_nonneg cfg initState ops2 (by norm_num [initState, zeroStats])

/-- C7 witness: the two-operation good trace evaluated concretely. -/
theorem c7_totalFiles_counts_witness :
    GoodTrace cfgEx initState opsGood ∧
    ((applyOps cfgEx initState opsGood).stats.totalFiles =
      (countSets opsGood : Int) - (countDels opsGood : Int) ∧
     0 ≤ (applyOps cfgEx initState [Op.odel "z"]).stats.totalFiles) :=
  ⟨GoodTrace.gset "a" [7] "m" 10 0 (by decide)
     (GoodTrace.gdel "a" fiSet (by decide) (GoodTrace.nil _)),
   c7_totalFiles_counts cfgEx opsGood [Op.odel "z"]
     (GoodTrace.gset "a" [7] "m" 10 0 (by decide)
       (GoodTrace.gdel "a" fiSet (by decide) (GoodTrace.nil _)))⟩

